import Mathlib

set_option maxRecDepth 8192
set_option maxHeartbeats 1000000

/-! Shallow embedding of the SecureDoc-AI geometric reconciliation and redaction
pipeline: `app/services/redact.py`, `app/services/pii.py`, `app/services/layout.py`.
Python `str` values manipulated by offset are modelled as `List Char`, machine ints
as `Int`, Python floats produced by exact integer arithmetic as `ℚ`, raised
exceptions as `Except String`. -/

/-- A dynamically-typed Python scalar as it can appear in an entity dictionary
under the keys `start` / `end`. -/
inductive PyVal where
  | pynone : PyVal
  | int (n : Int) : PyVal
  | str (s : String) : PyVal
deriving DecidableEq, Repr

/-- A PII entity dictionary. `Option.none` models an absent key; the `end` key is
modelled by the field `stop` (`end` is a Lean keyword). -/
structure Entity where
  entity : Option String := Option.none
  etext : Option String := Option.none
  start : Option PyVal := Option.none
  stop : Option PyVal := Option.none
  bbox : Option (List Int) := Option.none
  words : Option (List (List Char)) := Option.none
deriving DecidableEq, Repr

/-- Python `text[:i]` on a character list (negative indices count from the end,
out-of-range indices clamp). -/
def pyTake (l : List Char) (i : Int) : List Char :=
  if 0 ≤ i then l.take i.toNat else l.take ((l.length : Int) + i).toNat

/-- Python `text[i:]` on a character list. -/
def pyDrop (l : List Char) (i : Int) : List Char :=
  if 0 ≤ i then l.drop i.toNat else l.drop ((l.length : Int) + i).toNat

/-- The literal replacement marker `[REDACTED_<entity_type>]` with the entity type
defaulting to UNKNOWN, from redact.py line 62 and 65. -/
def redactionMarker (etype : Option String) : List Char :=
  ("[REDACTED_" ++ etype.getD ("UNKNOWN") ++ "]").data

/-- The sort key `e.get("start", 0)` of redact.py line 56. -/
def sortKey (e : Entity) : PyVal := e.start.getD (.int 0)

/-- Lexicographic comparison of character lists by code point, as Python compares
strings. -/
def strLE : List Char → List Char → Bool
  | [], _ => true
  | _ :: _, [] => false
  | a :: as, b :: bs => if a = b then strLE as bs else decide (a < b)

/-- Python `<=` between dynamic values: defined int-int and str-str, `TypeError`
otherwise (in particular `None` compares with nothing, itself included). -/
def pyLE : PyVal → PyVal → Except String Bool
  | .int a, .int b => .ok (decide (a ≤ b))
  | .str a, .str b => .ok (strLE a.data b.data)
  | _, _ => .error ("TypeError")

/-- Stable insertion into a list sorted by descending start key: the new element
goes after every element whose key is ≥ its own, modelling the tie behaviour of
Python `sorted(..., reverse=True)`; comparison of incomparable keys raises. -/
def insertDesc (x : Entity) : List Entity → Except String (List Entity)
  | [] => .ok [x]
  | y :: l => do
    let le ← pyLE (sortKey x) (sortKey y)
    if le then do
      let l' ← insertDesc x l
      pure (y :: l')
    else
      pure (x :: y :: l)

/-- Python `sorted(entities, key=lambda e: e.get("start", 0), reverse=True)`
(redact.py line 56) as a stable insertion sort that can raise `TypeError`. -/
def pySortDesc (entities : List Entity) : Except String (List Entity) :=
  entities.foldlM (fun acc e => insertDesc e acc) []

/-- Is a value retrieved by `dict.get` Python `None` (key absent, or present with
value `None`)? -/
def isNoneVal : Option PyVal → Bool
  | Option.none => true
  | some .pynone => true
  | some _ => false

/-- One iteration of the text-redaction loop (redact.py lines 59-66): entities
whose start or end is `None` are skipped, non-int offsets raise on slicing. -/
def redactStep (acc : List Char) (e : Entity) : Except String (List Char) :=
  if isNoneVal e.start || isNoneVal e.stop then .ok acc
  else
    match e.start, e.stop with
    | some (.int s), some (.int t) =>
        .ok (pyTake acc s ++ redactionMarker e.entity ++ pyDrop acc t)
    | _, _ => .error ("TypeError")

/-- Body of `RedactionService.redact_text_entities` inside its `try` block. -/
def redactBody (text : List Char) (entities : List Entity) : Except String (List Char) := do
  let sorted ← pySortDesc entities
  sorted.foldlM redactStep text

/-- `RedactionService.redact_text_entities` (redact.py lines 43-71): on any
internal failure the original text is returned unchanged. -/
def redact_text_entities (text : List Char) (entities : List Entity) : List Char :=
  match redactBody text entities with
  | .ok r => r
  | .error _ => text

/-- An entity built from an explicit (start, end, type) span. -/
def mkEnt (q : Nat × Nat × Option String) : Entity :=
  { entity := q.2.2, start := some (.int (q.1 : Int)), stop := some (.int (q.2.1 : Int)) }

/-- Entities built from explicit (start, end, type) spans, with valid in-range
offsets. -/
def mkEntities (sp : List (Nat × Nat × Option String)) : List Entity :=
  sp.map mkEnt

/-- Follows the spec: ascending non-overlapping spans spliced into the text, each
replaced by its literal marker, everything outside the spans kept. The first
argument `p` is the offset the remaining text starts at. -/
def spliceFrom (text : List Char) : Nat → List (Nat × Nat × Option String) → List Char
  | p, [] => text.drop p
  | p, (s, t, m) :: rest =>
      (text.drop p).take (s - p) ++ redactionMarker m ++ spliceFrom text t rest

/-- The spans are listed in strictly ascending start order, pairwise
non-overlapping, with valid offsets: `p ≤ s ≤ t ≤ len` and later spans start at
or after `max t (s+1)`. -/
def spansSorted (len : Nat) : Nat → List (Nat × Nat × Option String) → Bool
  | _, [] => true
  | p, (s, t, _) :: rest =>
      decide (p ≤ s) && decide (s ≤ t) && decide (t ≤ len) &&
      spansSorted len (max t (s + 1)) rest

example : redact_text_entities ("SSN 123-45-6789 end").data
    (mkEntities [(4, 15, some ("SSN"))]) = ("SSN [REDACTED_SSN] end").data := by
  decide

/-! ### Text redaction: lemmas for claims C1 and C2 -/

theorem except_bind_ok {α β : Type} (a : α) (f : α → Except String β) :
    ((Except.ok a : Except String α) >>= f) = f a := rfl

theorem spansSorted_cons {len p s t : Nat} {m : Option String}
    {rest : List (Nat × Nat × Option String)}
    (h : spansSorted len p ((s, t, m) :: rest) = true) :
    p ≤ s ∧ s ≤ t ∧ t ≤ len ∧ spansSorted len (max t (s + 1)) rest = true := by
  simp only [spansSorted, Bool.and_eq_true, decide_eq_true_eq] at h
  exact ⟨h.1.1.1, h.1.1.2, h.1.2, h.2⟩

theorem insertDesc_front (x : Entity) (acc : List Entity) (n : Int)
    (hx : sortKey x = .int n)
    (hacc : ∀ a, acc.head? = some a → ∃ k : Int, sortKey a = .int k ∧ k < n) :
    insertDesc x acc = .ok (x :: acc) := by
  cases acc with
  | nil => rfl
  | cons y l =>
      obtain ⟨k, hk, hkn⟩ := hacc y rfl
      have hd : decide (n ≤ k) = false := by simp; omega
      simp only [insertDesc, hx, hk, pyLE, except_bind_ok, hd]
      rfl

theorem pySort_spans (len : Nat) :
    ∀ (sp : List (Nat × Nat × Option String)) (p : Nat) (acc : List Entity),
    spansSorted len p sp = true →
    (∀ a, acc.head? = some a → ∃ k : Int, sortKey a = .int k ∧ k < (p : Int)) →
    List.foldlM (fun acc e => insertDesc e acc) acc (mkEntities sp) =
      .ok ((mkEntities sp).reverse ++ acc)
  | [], _, acc, _, _ => by
      simp only [mkEntities, List.map_nil, List.foldlM_nil, List.reverse_nil, List.nil_append]
      rfl
  | (s, t, m) :: rest, p, acc, h, hacc => by
      obtain ⟨hps, hst, htl, hrest⟩ := spansSorted_cons h
      have hins : insertDesc (mkEnt (s, t, m)) acc = .ok (mkEnt (s, t, m) :: acc) := by
        refine insertDesc_front _ _ (s : Int) rfl (fun a ha => ?_)
        obtain ⟨k, hk, hkp⟩ := hacc a ha
        exact ⟨k, hk, by omega⟩
      rw [show mkEntities ((s, t, m) :: rest) = mkEnt (s, t, m) :: mkEntities rest from rfl,
        List.foldlM_cons, hins, except_bind_ok]
      rw [pySort_spans len rest (max t (s + 1)) _ hrest ?_]
      · simp [List.append_assoc]
      · intro a ha
        obtain rfl : a = mkEnt (s, t, m) := by simpa using ha.symm
        refine ⟨(s : Int), rfl, ?_⟩
        have : s + 1 ≤ max t (s + 1) := le_max_right _ _
        omega

/-- One pure splice step `acc[:start] + marker + acc[end:]` for a concrete span. -/
def spStep (acc : List Char) (q : Nat × Nat × Option String) : List Char :=
  pyTake acc (q.1 : Int) ++ redactionMarker q.2.2 ++ pyDrop acc (q.2.1 : Int)

theorem foldlM_redactStep_spans :
    ∀ (l : List (Nat × Nat × Option String)) (a : List Char),
    List.foldlM redactStep a (mkEntities l) = .ok (l.foldl spStep a)
  | [], a => by
      simp only [mkEntities, List.map_nil, List.foldlM_nil, List.foldl_nil]
      rfl
  | (s, t, m) :: rest, a => by
      rw [show mkEntities ((s, t, m) :: rest) = mkEnt (s, t, m) :: mkEntities rest from rfl,
        List.foldlM_cons, List.foldl_cons]
      have hstep : redactStep a (mkEnt (s, t, m)) = .ok (spStep a (s, t, m)) := rfl
      rw [hstep, except_bind_ok]
      exact foldlM_redactStep_spans rest _

theorem spliceFrom_split (text : List Char) (rest : List (Nat × Nat × Option String))
    (q i : Nat) (hq : spansSorted text.length q rest = true) (hiq : i ≤ q)
    (_hil : i ≤ text.length) :
    spliceFrom text 0 rest = text.take i ++ spliceFrom text i rest := by
  cases rest with
  | nil => simp [spliceFrom]
  | cons b r2 =>
      obtain ⟨s', t', m'⟩ := b
      obtain ⟨hqs, _, _, _⟩ := spansSorted_cons hq
      simp only [spliceFrom, List.drop_zero, Nat.sub_zero]
      have hs : i + (s' - i) = s' := by omega
      rw [← hs, List.take_add]
      simp [List.append_assoc]

theorem foldr_spStep_splice (text : List Char) :
    ∀ (sp : List (Nat × Nat × Option String)) (p : Nat),
    spansSorted text.length p sp = true →
    sp.foldr (fun q acc => spStep acc q) text = spliceFrom text 0 sp
  | [], _, _ => by simp [spliceFrom]
  | (s, t, m) :: rest, p, h => by
      obtain ⟨hps, hst, htl, hrest⟩ := spansSorted_cons h
      simp only [List.foldr_cons]
      rw [foldr_spStep_splice text rest _ hrest]
      have hsplit_s : spliceFrom text 0 rest = text.take s ++ spliceFrom text s rest :=
        spliceFrom_split text rest (max t (s + 1)) s hrest (by omega) (by omega)
      have hsplit_t : spliceFrom text 0 rest = text.take t ++ spliceFrom text t rest :=
        spliceFrom_split text rest (max t (s + 1)) t hrest (by omega) htl
      have htake : pyTake (spliceFrom text 0 rest) ((s : Nat) : Int) = text.take s := by
        rw [pyTake, if_pos (by positivity), Int.toNat_natCast, hsplit_s]
        exact List.take_left' (by rw [List.length_take]; omega)
      have hdrop : pyDrop (spliceFrom text 0 rest) ((t : Nat) : Int) = spliceFrom text t rest := by
        rw [pyDrop, if_pos (by positivity), Int.toNat_natCast, hsplit_t]
        exact List.drop_left' (by rw [List.length_take]; omega)
      show spStep (spliceFrom text 0 rest) (s, t, m) = _
      rw [spStep]
      simp only [htake, hdrop, spliceFrom, List.drop_zero, Nat.sub_zero]

/-- C1: `redact_text_entities` processes entities in descending start order and
splices each `[start,end)` span with the literal marker `[REDACTED_<type>]`; for
non-overlapping entities with valid offsets every span is replaced by its marker
and the text outside the spans (in particular everything before each span) is
kept intact, as expressed by equality with the ascending `spliceFrom` splice. -/
theorem c1_redact_text_entities_splice (text : List Char)
    (sp : List (Nat × Nat × Option String))
    (h : spansSorted text.length 0 sp = true) :
    redact_text_entities text (mkEntities sp) = spliceFrom text 0 sp := by
  have hsort : pySortDesc (mkEntities sp) = .ok ((mkEntities sp).reverse) := by
    have := pySort_spans text.length sp 0 [] h (fun a ha => by simp at ha)
    simpa [pySortDesc] using this
  have hrev : (mkEntities sp).reverse = mkEntities sp.reverse := by
    simp [mkEntities]
  rw [redact_text_entities, redactBody, hsort, except_bind_ok, hrev]
  rw [show ∀ l, List.foldlM redactStep text (mkEntities l) = .ok (l.foldl spStep text) from
        fun l => foldlM_redactStep_spans l text]
  rw [List.foldl_reverse]
  rw [foldr_spStep_splice text sp 0 h]

/-- Witness for C1 at the spec's concrete example: text `"SSN 123-45-6789 end"`,
entity `(start 4, end 15, type SSN)` redacts to `"SSN [REDACTED_SSN] end"`. -/
theorem c1_witness :
    spansSorted (("SSN 123-45-6789 end").data).length 0 [(4, 15, some ("SSN"))] = true ∧
    redact_text_entities (("SSN 123-45-6789 end").data)
      (mkEntities [(4, 15, some ("SSN"))]) = ("SSN [REDACTED_SSN] end").data := by
  refine ⟨by decide, ?_⟩
  rw [c1_redact_text_entities_splice _ _ (by decide)]
  decide

/-- C2: an entity whose start or end retrieves as `None` is skipped by the
redaction loop without aborting the pass, and whenever the body of
`redact_text_entities` raises, the function fails closed and returns the
original input text unchanged, never a partially redacted string. -/
theorem c2_skip_and_fail_closed :
    (∀ acc e, (isNoneVal e.start || isNoneVal e.stop) = true → redactStep acc e = .ok acc) ∧
    (∀ text entities err, redactBody text entities = .error err →
       redact_text_entities text entities = text) := by
  constructor
  · intro acc e h
    simp [redactStep, h]
  · intro text entities err h
    simp [redact_text_entities, h]

/-- An entity with no start offset at all (key absent). -/
def entNoStart : Entity := { stop := some (.int 1) }

/-- An entity whose start offset is a string, so that slicing raises TypeError. -/
def entStrStart : Entity := { start := some (.str ("x")), stop := some (.int 1) }

/-- Witness for C2: a start-less entity leaves the accumulator untouched, and an
input on which the body raises comes back as the unchanged original text. -/
theorem c2_witness :
    redactStep (("ab").data) entNoStart = .ok (("ab").data) ∧
    redact_text_entities (("ab").data) [entStrStart] = ("ab").data := by
  constructor
  · exact c2_skip_and_fail_closed.1 _ _ (by rfl)
  · exact c2_skip_and_fail_closed.2 _ _ ("TypeError") (by rfl)

/-! ### Character-to-word mapping (pii.py), claims C4 and C9 -/

/-- An OCR word token: its text and its bounding box `[x, y, w, h]` when present. -/
structure OcrWord where
  word : List Char := []
  bbox : Option (List Int) := Option.none
deriving DecidableEq, Repr, Inhabited

/-- Python `text.find(pat, start)`: the least `p ≥ start` at which `pat` occurs,
`Option.none` when there is none (including `start > len(text)`). -/
def findFrom (text pat : List Char) (start : Nat) : Option Nat :=
  (List.range' start (text.length + 1 - start)).find? (fun p => pat.isPrefixOf (text.drop p))

theorem findFrom_some (text pat : List Char) (start p : Nat)
    (h : findFrom text pat start = some p) :
    start ≤ p ∧ pat.isPrefixOf (text.drop p) = true := by
  have hpm := List.mem_of_find?_eq_some h
  have hpp := List.find?_some h
  rw [List.mem_range'] at hpm
  obtain ⟨i, _, rfl⟩ := hpm
  exact ⟨by omega, hpp⟩

/-- One step of `_create_char_to_word_map`'s loop over `enumerate(words)`
(pii.py lines 173-186): empty word texts are skipped, a found word maps its
character range to its index and advances the cursor, an unfound word changes
nothing. -/
def charMapStep (text : List Char) (m : Nat → Option Nat) (pos : Nat) (i : Nat)
    (w : OcrWord) : (Nat → Option Nat) × Nat :=
  if w.word = [] then (m, pos)
  else
    match findFrom text w.word pos with
    | Option.none => (m, pos)
    | some p =>
        (fun k => if p ≤ k ∧ k < p + w.word.length then some i else m k, p + w.word.length)

/-- The loop of `_create_char_to_word_map` over the remaining words, carrying the
enumeration index, the mapping built so far and the cursor. -/
def charMapLoop (text : List Char) :
    List OcrWord → Nat → (Nat → Option Nat) → Nat → (Nat → Option Nat) × Nat
  | [], _, m, pos => (m, pos)
  | w :: rest, i, m, pos =>
      let st := charMapStep text m pos i w
      charMapLoop text rest (i + 1) st.1 st.2

/-- `PIIDetectionService._create_char_to_word_map` (pii.py lines 158-188). -/
def create_char_to_word_map (text : List Char) (words : List OcrWord) : Nat → Option Nat :=
  (charMapLoop text words 0 (fun _ => Option.none) 0).1

/-- The two example words of the spec's character-mapping test. -/
def helloWords : List OcrWord := [{ word := ("Hello").data }, { word := ("World").data }]

example : create_char_to_word_map (("Hello World").data) helloWords 3 = some 0 := by decide
example : create_char_to_word_map (("Hello World").data) helloWords 5 = Option.none := by decide
example : create_char_to_word_map (("Hello World").data) helloWords 8 = some 1 := by decide

theorem helloMap_eq :
    create_char_to_word_map (("Hello World").data) helloWords =
      fun k => if 6 ≤ k ∧ k < 11 then some 1
               else if 0 ≤ k ∧ k < 5 then some 0 else Option.none := by
  rfl

/-- C4: the char-to-word mapper starts its cursor at 0; a word found by forward
substring search at `p ≥ cursor` maps every offset in `[p, p+len)` to its index
and moves the cursor to `p+len`; an unfound word contributes nothing and leaves
the cursor unchanged; on `"Hello World"` offsets 0-4 map to word 0, offsets 6-10
to word 1, and all other offsets (the space at 5 included) are unmapped. -/
theorem c4_char_map_behaviour :
    (∀ text m pos i w p, w.word ≠ [] → findFrom text w.word pos = some p →
        pos ≤ p ∧
        charMapStep text m pos i w =
          (fun k => if p ≤ k ∧ k < p + w.word.length then some i else m k,
           p + w.word.length))
    ∧ (∀ text m pos i w, w.word ≠ [] → findFrom text w.word pos = Option.none →
        charMapStep text m pos i w = (m, pos))
    ∧ (∀ k, k ≤ 4 → create_char_to_word_map (("Hello World").data) helloWords k = some 0)
    ∧ (∀ k, 6 ≤ k → k ≤ 10 →
        create_char_to_word_map (("Hello World").data) helloWords k = some 1)
    ∧ (∀ k, ¬(k ≤ 4 ∨ (6 ≤ k ∧ k ≤ 10)) →
        create_char_to_word_map (("Hello World").data) helloWords k = Option.none) := by
  refine ⟨?_, ?_, ?_, ?_, ?_⟩
  · intro text m pos i w p hw hp
    refine ⟨(findFrom_some text w.word pos p hp).1, ?_⟩
    rw [charMapStep, if_neg hw, hp]
  · intro text m pos i w hw hp
    rw [charMapStep, if_neg hw, hp]
  · intro k hk
    rw [helloMap_eq]
    simp only
    rw [if_neg (by omega), if_pos (by omega)]
  · intro k hk1 hk2
    rw [helloMap_eq]
    simp only
    rw [if_pos (by omega)]
  · intro k hk
    rw [helloMap_eq]
    simp only
    rw [if_neg (by omega), if_neg (by omega)]

/-- Witness for C4: concrete lookups in the `"Hello World"` mapping. -/
theorem c4_witness :
    create_char_to_word_map (("Hello World").data) helloWords 3 = some 0 ∧
    create_char_to_word_map (("Hello World").data) helloWords 8 = some 1 ∧
    create_char_to_word_map (("Hello World").data) helloWords 5 = Option.none := by
  exact ⟨c4_char_map_behaviour.2.2.1 3 (by omega),
         c4_char_map_behaviour.2.2.2.1 8 (by omega) (by omega),
         c4_char_map_behaviour.2.2.2.2 5 (by omega)⟩

/-- Invariant of the char-to-word map builder: every mapped value is the index of
an already-processed word, mapped offsets lie below the cursor, and the offsets
mapped to any one index form exactly one interval at which that word's text
occurs in the page text. -/
def MapInv (text : List Char) (words : List OcrWord) (m : Nat → Option Nat)
    (pos i : Nat) : Prop :=
  (∀ k v, m k = some v → v < i ∧ k < pos) ∧
  (∀ v k0, m k0 = some v →
    ∃ p w, words[v]? = some w ∧ p + w.word.length ≤ pos ∧
      (∀ k, m k = some v ↔ p ≤ k ∧ k < p + w.word.length) ∧
      w.word.isPrefixOf (text.drop p) = true)

theorem charMapStep_inv (text : List Char) (words : List OcrWord)
    (m : Nat → Option Nat) (pos i : Nat) (w : OcrWord)
    (hw : words[i]? = some w) (hinv : MapInv text words m pos i) :
    MapInv text words (charMapStep text m pos i w).1 (charMapStep text m pos i w).2 (i + 1) ∧
    pos ≤ (charMapStep text m pos i w).2 := by
  obtain ⟨h1, h2⟩ := hinv
  by_cases hword : w.word = []
  · rw [charMapStep, if_pos hword]
    refine ⟨⟨fun k v hk => ⟨by have := (h1 k v hk).1; omega, (h1 k v hk).2⟩, ?_⟩, le_refl _⟩
    intro v k0 hk0
    exact h2 v k0 hk0
  · rw [charMapStep, if_neg hword]
    cases hfind : findFrom text w.word pos with
    | none =>
        refine ⟨⟨fun k v hk => ⟨by have := (h1 k v hk).1; omega, (h1 k v hk).2⟩, ?_⟩, le_refl _⟩
        intro v k0 hk0
        exact h2 v k0 hk0
    | some p =>
        obtain ⟨hposp, hpre⟩ := findFrom_some text w.word pos p hfind
        simp only
        constructor
        · constructor
          · intro k v hk
            dsimp only at hk ⊢
            by_cases hkr : p ≤ k ∧ k < p + w.word.length
            · rw [if_pos hkr] at hk
              cases hk
              exact ⟨by omega, by omega⟩
            · rw [if_neg hkr] at hk
              obtain ⟨hv, hkpos⟩ := h1 k v hk
              exact ⟨by omega, by omega⟩
          · intro v k0 hk0
            dsimp only at hk0 ⊢
            by_cases hkr : p ≤ k0 ∧ k0 < p + w.word.length
            · rw [if_pos hkr] at hk0
              cases hk0
              refine ⟨p, w, hw, le_refl _, ?_, hpre⟩
              intro k
              constructor
              · intro hk
                by_cases hkr2 : p ≤ k ∧ k < p + w.word.length
                · exact hkr2
                · rw [if_neg hkr2] at hk
                  have := (h1 k _ hk).1
                  omega
              · intro hk
                rw [if_pos hk]
            · rw [if_neg hkr] at hk0
              obtain ⟨p0, w0, hw0, hpos0, hiff, hpre0⟩ := h2 v k0 hk0
              have hvi : v < i := (h1 k0 v hk0).1
              refine ⟨p0, w0, hw0, by omega, ?_, hpre0⟩
              intro k
              constructor
              · intro hk
                by_cases hkr2 : p ≤ k ∧ k < p + w.word.length
                · rw [if_pos hkr2] at hk
                  cases hk
                  omega
                · rw [if_neg hkr2] at hk
                  exact (hiff k).mp hk
              · intro hk
                have hkold := (hiff k).mpr hk
                have hklt : k < p := by omega
                rw [if_neg (by omega)]
                exact hkold
        · omega

theorem charMapLoop_inv (text : List Char) (words : List OcrWord) :
    ∀ (rest : List OcrWord) (i : Nat) (m : Nat → Option Nat) (pos : Nat),
    words.drop i = rest → MapInv text words m pos i →
    MapInv text words (charMapLoop text rest i m pos).1
      (charMapLoop text rest i m pos).2 (i + rest.length)
  | [], i, m, pos, _, hinv => by
      simpa [charMapLoop] using hinv
  | w :: rest', i, m, pos, hdrop, hinv => by
      have hw : words[i]? = some w := by
        have h0 : words[i + 0]? = (words.drop i)[0]? := (List.getElem?_drop words i 0).symm
        rw [hdrop] at h0
        simpa using h0
      have hdrop' : words.drop (i + 1) = rest' := by
        have : words.drop (i + 1) = (words.drop i).drop 1 := by
          rw [List.drop_drop, Nat.add_comm]
        rw [this, hdrop]
        rfl
      obtain ⟨hst, _⟩ := charMapStep_inv text words m pos i w hw hinv
      have := charMapLoop_inv text words rest' (i + 1)
        (charMapStep text m pos i w).1 (charMapStep text m pos i w).2 hdrop' hst
      have hgoal : i + (w :: rest').length = (i + 1) + rest'.length := by
        simp [List.length_cons]
        omega
      rw [hgoal]
      simpa [charMapLoop] using this

/-- C9: every value of the char-to-word mapping is a valid word index, and the
offsets mapped to an index `v` form exactly one contiguous interval
`[p, p+len(word_v))` at which the page text carries word `v`'s text. -/
theorem c9_char_map_invariant (text : List Char) (words : List OcrWord) (v k0 : Nat)
    (h : create_char_to_word_map text words k0 = some v) :
    v < words.length ∧
    ∃ p w, words[v]? = some w ∧
      (∀ k, create_char_to_word_map text words k = some v ↔
        p ≤ k ∧ k < p + w.word.length) ∧
      w.word.isPrefixOf (text.drop p) = true := by
  have hinv : MapInv text words (fun _ => Option.none) 0 0 := by
    constructor
    · intro k v hk
      cases hk
    · intro v k0 hk
      cases hk
  have hfin := charMapLoop_inv text words words 0 (fun _ => Option.none) 0 rfl hinv
  rw [Nat.zero_add] at hfin
  obtain ⟨hf1, hf2⟩ := hfin
  have hv : v < words.length := (hf1 k0 v h).1
  obtain ⟨p, w, hw, _, hiff, hpre⟩ := hf2 v k0 h
  exact ⟨hv, p, w, hw, hiff, hpre⟩

/-- Witness for C9 at `"Hello World"` with word index 0, mapped from offset 2. -/
theorem c9_witness :
    0 < helloWords.length ∧
    ∃ p w, helloWords[0]? = some w ∧
      (∀ k, create_char_to_word_map (("Hello World").data) helloWords k = some 0 ↔
        p ≤ k ∧ k < p + w.word.length) ∧
      w.word.isPrefixOf (((("Hello World").data)).drop p) = true :=
  c9_char_map_invariant (("Hello World").data) helloWords 0 2 (by decide)

/-! ### Entity-to-geometry mapping (pii.py lines 191-243), claim C5 -/

/-- Stable insertion into an ascending list: existing smaller-or-equal keys stay
in front, so ties keep their original order as in Python sorts. -/
def insertOrd {α : Type} (le : α → α → Bool) (x : α) : List α → List α
  | [] => [x]
  | y :: l => if le y x then y :: insertOrd le x l else x :: y :: l

/-- Stable insertion sort ascending by `le`. -/
def sortOrd {α : Type} (le : α → α → Bool) (l : List α) : List α :=
  l.foldl (fun acc x => insertOrd le x acc) []

/-- Python `range(s, t)` over ints. -/
def pyRange (s t : Int) : List Int :=
  (List.range (t - s).toNat).map (fun k => s + k)

/-- The distinct word indices referenced by the character offsets in `[s, t)`
present in the char-to-word map, in ascending order: Python
`sorted(word_indices)` for the set built in pii.py lines 209-212 and 224. -/
def refIdxs (m : Nat → Option Nat) (s t : Int) : List Nat :=
  sortOrd (fun a b => decide (a ≤ b))
    (((pyRange s t).filterMap (fun c => if c < 0 then Option.none else m c.toNat)).dedup)

/-- Update of the running minimum that starts at `float('inf')` (`Option.none`). -/
def optMin (o : Option Int) (x : Int) : Option Int :=
  some (match o with | Option.none => x | some v => min v x)

/-- Accumulator of the geometry loop: running minima start at infinity, maxima
at 0, plus the collected word texts. -/
structure GeoAcc where
  minx : Option Int := Option.none
  miny : Option Int := Option.none
  maxx : Int := 0
  maxy : Int := 0
  ws : List (List Char) := []
deriving DecidableEq, Repr

/-- One iteration of the geometry loop (pii.py lines 227-236): indices past the
end of the word list or words without a 4-element bbox are skipped. -/
def geoStep (words : List OcrWord) (a : GeoAcc) (idx : Nat) : GeoAcc :=
  match words[idx]? with
  | Option.none => a
  | some w =>
      match w.bbox with
      | some [x, y, wd, ht] =>
          { minx := optMin a.minx x, miny := optMin a.miny y,
            maxx := max a.maxx (x + wd), maxy := max a.maxy (y + ht),
            ws := a.ws ++ [w.word] }
      | _ => a

/-- `PIIDetectionService._map_entity_to_words`: raises KeyError/TypeError on a
missing or non-int start/end, otherwise augments the entity with the union box
and word texts when some referenced word carries a box (`min_x` and `min_y` are
always set together, so the pair match models the `min_x < inf` test). -/
def map_entity_to_words (e : Entity) (m : Nat → Option Nat) (words : List OcrWord) :
    Except String Entity :=
  match e.start, e.stop with
  | some (.int s), some (.int t) =>
      let idxs := refIdxs m s t
      if idxs = [] then .ok e
      else
        let a := idxs.foldl (geoStep words) {}
        match a.minx, a.miny with
        | some mx, some my =>
            .ok { e with bbox := some [mx, my, a.maxx - mx, a.maxy - my],
                         words := some a.ws }
        | _, _ => .ok e
  | _, _ => .error ("KeyError")

/-- The box of the word at index `i`, when the index is in range and the word
carries a 4-element bbox. -/
def boxAt (words : List OcrWord) (i : Nat) : Option (Int × Int × Int × Int) :=
  match words[i]? with
  | some w =>
      match w.bbox with
      | some [x, y, wd, ht] => some (x, y, wd, ht)
      | _ => Option.none
  | Option.none => Option.none

/-- The text of the word at index `i`. -/
def wordTextAt (words : List OcrWord) (i : Nat) : List Char :=
  ((words[i]?).map (fun w => w.word)).getD []

/-- Index `i` denotes an in-range word with a 4-element, non-negative box. -/
def ValidRef (words : List OcrWord) (i : Nat) : Prop :=
  ∃ x y wd ht, boxAt words i = some (x, y, wd, ht) ∧
    0 ≤ x ∧ 0 ≤ y ∧ 0 ≤ wd ∧ 0 ≤ ht

/-- Follows the spec: the minimal covering axis-aligned box `[x, y, w, h]` of a
nonempty list of `(x, y, w, h)` boxes. -/
def unionBoxSpec : List (Int × Int × Int × Int) → List Int
  | [] => []
  | b :: rest =>
      let mx := rest.foldl (fun c q => min c q.1) b.1
      let my := rest.foldl (fun c q => min c q.2.1) b.2.1
      let gx := rest.foldl (fun c q => max c (q.1 + q.2.2.1)) (b.1 + b.2.2.1)
      let gy := rest.foldl (fun c q => max c (q.2.1 + q.2.2.2)) (b.2.1 + b.2.2.2)
      [mx, my, gx - mx, gy - my]

theorem boxAt_inv (words : List OcrWord) (i : Nat) (q : Int × Int × Int × Int)
    (h : boxAt words i = some q) :
    ∃ w, words[i]? = some w ∧ w.bbox = some [q.1, q.2.1, q.2.2.1, q.2.2.2] ∧
      wordTextAt words i = w.word := by
  rw [boxAt] at h
  cases hw : words[i]? with
  | none => rw [hw] at h; cases h
  | some w =>
      rw [hw] at h
      dsimp only at h
      refine ⟨w, rfl, ?_, by rw [wordTextAt, hw]; rfl⟩
      cases hb : w.bbox with
      | none => rw [hb] at h; cases h
      | some l =>
          rw [hb] at h
          match l, h with
          | [x, y, wd, ht], h => cases h; rfl

theorem geoFold_somes (words : List OcrWord) :
    ∀ (idxs : List Nat) (a : GeoAcc) (mx my : Int),
    (∀ i ∈ idxs, ValidRef words i) →
    a.minx = some mx → a.miny = some my →
    idxs.foldl (geoStep words) a =
      { minx := some ((idxs.filterMap (boxAt words)).foldl (fun c q => min c q.1) mx),
        miny := some ((idxs.filterMap (boxAt words)).foldl (fun c q => min c q.2.1) my),
        maxx := (idxs.filterMap (boxAt words)).foldl (fun c q => max c (q.1 + q.2.2.1)) a.maxx,
        maxy := (idxs.filterMap (boxAt words)).foldl (fun c q => max c (q.2.1 + q.2.2.2)) a.maxy,
        ws := a.ws ++ idxs.map (wordTextAt words) }
  | [], a, mx, my, _, hmx, hmy => by
      cases a
      simp only [List.foldl_nil, List.filterMap_nil, List.map_nil, List.append_nil] at *
      simp [hmx, hmy]
  | i :: rest, a, mx, my, hval, hmx, hmy => by
      obtain ⟨x, y, wd, ht, hbox, _, _, _, _⟩ := hval i (by simp)
      obtain ⟨w, hw, hb, htext⟩ := boxAt_inv words i _ hbox
      have hstep : geoStep words a i =
          { minx := some (min mx x), miny := some (min my y),
            maxx := max a.maxx (x + wd), maxy := max a.maxy (y + ht),
            ws := a.ws ++ [w.word] } := by
        simp only [geoStep, hw, hb]
        simp [optMin, hmx, hmy]
      rw [List.foldl_cons, hstep]
      rw [geoFold_somes words rest _ (min mx x) (min my y)
        (fun j hj => hval j (by simp [hj])) rfl rfl]
      rw [List.filterMap_cons_some hbox]
      simp only [List.foldl_cons, List.map_cons]
      rw [htext]
      simp [List.append_assoc]

/-- C5: mapping an entity to geometry returns it unmodified when its span
references no word index; otherwise (with every referenced index in range and
carrying a non-negative 4-element box) it sets the entity's box to the minimal
covering box of the referenced words' boxes and its words to their texts in
ascending index order. -/
theorem c5_map_entity_geometry (e : Entity) (m : Nat → Option Nat) (words : List OcrWord)
    (s t : Int) (hs : e.start = some (.int s)) (ht : e.stop = some (.int t)) :
    (refIdxs m s t = [] → map_entity_to_words e m words = .ok e)
    ∧ ((∀ i ∈ refIdxs m s t, ValidRef words i) → refIdxs m s t ≠ [] →
        map_entity_to_words e m words = .ok { e with
          bbox := some (unionBoxSpec ((refIdxs m s t).filterMap (boxAt words))),
          words := some ((refIdxs m s t).map (wordTextAt words)) }) := by
  constructor
  · intro hempty
    simp only [map_entity_to_words, hs, ht, hempty, if_pos]
  · intro hval hne
    simp only [map_entity_to_words, hs, ht]
    rw [if_neg hne]
    cases hidxs : refIdxs m s t with
    | nil => exact absurd hidxs hne
    | cons i0 restI =>
        rw [hidxs] at hval
        obtain ⟨x0, y0, wd0, ht0, hbox0, hx0, hy0, hwd0, hht0⟩ := hval i0 (by simp)
        obtain ⟨w0, hw0, hb0, htext0⟩ := boxAt_inv words i0 _ hbox0
        have hstep0 : geoStep words {} i0 =
            { minx := some x0, miny := some y0,
              maxx := max 0 (x0 + wd0), maxy := max 0 (y0 + ht0),
              ws := [w0.word] } := by
          simp only [geoStep, hw0, hb0]
          rfl
        rw [List.foldl_cons, hstep0]
        rw [geoFold_somes words restI _ x0 y0 (fun j hj => hval j (by simp [hj])) rfl rfl]
        have hmx : max 0 (x0 + wd0) = x0 + wd0 := by omega
        have hmy : max 0 (y0 + ht0) = y0 + ht0 := by omega
        simp only [hmx, hmy]
        rw [List.filterMap_cons_some hbox0]
        rw [unionBoxSpec]
        simp only [List.map_cons, htext0]
        rfl

/-- A concrete char-to-word map sending offsets 0 and 1 to word index 0. -/
def exMapC5 : Nat → Option Nat := fun k => if k < 2 then some 0 else Option.none

/-- A single word with box `[3, 4, 10, 2]`. -/
def exWordsC5 : List OcrWord := [{ word := ("Hi").data, bbox := some [3, 4, 10, 2] }]

/-- An entity spanning offsets `[0, 2)`, which reference only word 0. -/
def exEntC5 : Entity := { start := some (.int 0), stop := some (.int 2) }

/-- An entity spanning offsets `[5, 9)`, which reference no word. -/
def exEntC5none : Entity := { start := some (.int 5), stop := some (.int 9) }

/-- Witness for C5: the single-word entity receives exactly word 0's box while
the entity over unmapped offsets comes back unmodified. -/
theorem c5_witness :
    map_entity_to_words exEntC5 exMapC5 exWordsC5 =
      .ok { exEntC5 with bbox := some [3, 4, 10, 2], words := some [("Hi").data] } ∧
    map_entity_to_words exEntC5none exMapC5 exWordsC5 = .ok exEntC5none := by
  have hidxs : refIdxs exMapC5 0 2 = [0] := by decide
  have h1 := (c5_map_entity_geometry exEntC5 exMapC5 exWordsC5 0 2 rfl rfl).2
    (by
      intro i hi
      rw [hidxs] at hi
      simp at hi
      subst hi
      exact ⟨3, 4, 10, 2, by decide, by decide, by decide, by decide, by decide⟩)
    (by rw [hidxs]; simp)
  have h2 := (c5_map_entity_geometry exEntC5none exMapC5 exWordsC5 5 9 rfl rfl).1
    (by decide)
  constructor
  · rw [h1, hidxs]
    exact congrArg Except.ok (by decide)
  · exact h2

/-! ### Image redaction and document processing (redact.py), claims C3, C8, C10 -/

/-- A loaded PIL image; only its dimensions matter to redaction geometry. -/
structure PyImage where
  width : Int
  height : Int
deriving DecidableEq, Repr

/-- The padded and clamped rectangle `(x1, y1, x2, y2)` filled for a bbox
(redact.py lines 99-108): 5px padding on each side, clamped to image bounds. -/
def padClamp (img : PyImage) (x y w h : Int) : Int × Int × Int × Int :=
  (max 0 (x - 5), max 0 (y - 5), min img.width (x + w + 5), min img.height (y + h + 5))

/-- A recorded redacted-area entry `{entity_type, bbox}` (redact.py lines 111-114). -/
structure RedArea where
  entity_type : String
  bbox : List Int
deriving DecidableEq, Repr

/-- Does the entity carry a 4-element bbox (redact.py line 97)? -/
def hasBox4 (e : Entity) : Bool :=
  match e.bbox with
  | some [_, _, _, _] => true
  | _ => false

/-- The rectangle drawn for an entity carrying a 4-element bbox. -/
def drawnRect (img : PyImage) (e : Entity) : Int × Int × Int × Int :=
  match e.bbox with
  | some [x, y, w, h] => padClamp img x y w h
  | _ => (0, 0, 0, 0)

/-- The redacted-area entry recorded for an entity carrying a 4-element bbox. -/
def areaOf (img : PyImage) (e : Entity) : RedArea :=
  { entity_type := (e.entity).getD ("UNKNOWN"),
    bbox := [(drawnRect img e).1, (drawnRect img e).2.1,
             (drawnRect img e).2.2.1 - (drawnRect img e).1,
             (drawnRect img e).2.2.2 - (drawnRect img e).2.1] }

/-- One iteration of `redact_image`'s entity loop, accumulating the recorded
areas and the rectangles actually drawn. -/
def imgStep (img : PyImage) (acc : List RedArea × List (Int × Int × Int × Int))
    (e : Entity) : List RedArea × List (Int × Int × Int × Int) :=
  match e.bbox with
  | some [x, y, w, h] =>
      let r := padClamp img x y w h
      (acc.1 ++ [{ entity_type := (e.entity).getD ("UNKNOWN"),
                   bbox := [r.1, r.2.1, r.2.2.1 - r.1, r.2.2.2 - r.2.1] }],
       acc.2 ++ [r])
  | _ => acc

/-- `RedactionService.redact_image` (redact.py lines 74-123): every entity with
a 4-element bbox gets a padded clamped rectangle filled and recorded; an
unreadable image is the exception branch returning the original path with no
areas. The rectangles drawn on the image are returned as the third component;
the temp-file name is modelled as a pure function of the input path. -/
def redact_image (env : String → Option PyImage) (image_path : String)
    (pii_entities : List Entity) :
    String × List RedArea × List (Int × Int × Int × Int) :=
  match env image_path with
  | Option.none => (image_path, [], [])
  | some img =>
      let res := pii_entities.foldl (imgStep img) ([], [])
      (("redacted_") ++ image_path, res.1, res.2)

/-- A preprocessed document page. -/
structure DocPage where
  page_num : Int
  temp_path : String
deriving DecidableEq, Repr

/-- Preprocessing output consumed by redaction. -/
structure DocData where
  status : String := "success"
  processed_pages : List DocPage := []
deriving DecidableEq, Repr

/-- One OCR page: its number and extracted text when present. -/
structure OcrPage where
  page_num : Int
  text : Option (List Char) := Option.none
deriving DecidableEq, Repr

/-- OCR output consumed by redaction. -/
structure OcrResults where
  status : String := "success"
  pages : List OcrPage := []
deriving DecidableEq, Repr

/-- One PII page result. -/
structure PiiPage where
  status : String := "success"
  message : Option String := Option.none
  entities : List Entity := []
deriving DecidableEq, Repr

/-- PII detection output consumed by redaction. -/
structure PiiResults where
  status : String := "success"
  results : List PiiPage := []
deriving DecidableEq, Repr

/-- One per-page entry of `redacted_pages`; absent dictionary keys are `none`. -/
structure PageEntry where
  page_num : Int
  status : String
  message : Option String := Option.none
  redacted_text : Option (List Char) := Option.none
  redacted_path : Option String := Option.none
  redactions : Option Nat := Option.none
  redacted_areas : Option (List RedArea) := Option.none
deriving DecidableEq, Repr

/-- One entry of the `redacted_texts` list. -/
structure PageText where
  page_num : Int
  text : List Char
deriving DecidableEq, Repr

/-- The document-level result of `process_document`. -/
structure RedResult where
  status : String
  message : Option String := Option.none
  pages : Nat := 0
  total_redactions : Nat := 0
  redacted_pages : List PageEntry := []
  redacted_texts : List PageText := []
deriving DecidableEq, Repr

/-- One iteration of `process_document`'s page loop (redact.py lines 242-319):
the page entry produced, the redacted-text entries appended, and the page's
contribution to the running redaction total. -/
def processPage (env : String → Option PyImage) (doc : DocData) (ocr : OcrResults)
    (page_num : Nat) (pii_page : PiiPage) : PageEntry × List PageText × Nat :=
  if pii_page.status ≠ "success" then
    ({ page_num := (page_num : Int) + 1, status := "error",
       message := some (("PII detection failed for this page: ") ++
         pii_page.message.getD ("Unknown error")) }, [], 0)
  else
    match doc.processed_pages.find? (fun p => decide (p.page_num = (page_num : Int) + 1)) with
    | Option.none =>
        ({ page_num := (page_num : Int) + 1, status := "error",
           message := some ("Could not find document page") }, [], 0)
    | some doc_page =>
        let pii_entities := pii_page.entities
        let ocr_page := ocr.pages.find? (fun p => decide (p.page_num = (page_num : Int) + 1))
        let rtext : Option (List Char) :=
          match ocr_page with
          | some op =>
              match op.text with
              | some txt =>
                  if pii_entities ≠ [] then some (redact_text_entities txt pii_entities)
                  else Option.none
              | Option.none => Option.none
          | Option.none => Option.none
        let rtexts : List PageText :=
          match rtext with
          | some txt => [{ page_num := (page_num : Int) + 1, text := txt }]
          | Option.none => []
        if pii_entities = [] then
          ({ page_num := (page_num : Int) + 1, status := "success",
             message := some ("No PII entities to redact"),
             redacted_text := rtext,
             redacted_path := some doc_page.temp_path,
             redactions := some 0 }, rtexts, 0)
        else
          let r := redact_image env doc_page.temp_path pii_entities
          ({ page_num := (page_num : Int) + 1, status := "success",
             redacted_text := rtext,
             redacted_path := some r.1,
             redactions := some r.2.1.length,
             redacted_areas := some r.2.1 }, rtexts, r.2.1.length)

/-- `RedactionService.process_document` (redact.py lines 213-327). -/
def process_document (env : String → Option PyImage) (document_data : DocData)
    (ocr_results : OcrResults) (pii_results : PiiResults) : RedResult :=
  if document_data.status ≠ "success" ∨ ocr_results.status ≠ "success" ∨
      pii_results.status ≠ "success" then
    { status := "error",
      message := some ("Cannot redact document due to preprocessing, OCR, or PII detection errors") }
  else
    let acc := pii_results.results.enum.foldl
      (fun (acc : List PageEntry × List PageText × Nat) pr =>
        let r := processPage env document_data ocr_results pr.1 pr.2
        (acc.1 ++ [r.1], acc.2.1 ++ r.2.1, acc.2.2 + r.2.2))
      ([], [], 0)
    { status := "success",
      pages := acc.1.length,
      total_redactions := acc.2.2,
      redacted_pages := acc.1,
      redacted_texts := acc.2.1 }

theorem imgStep_fold (img : PyImage) :
    ∀ (ents : List Entity) (a1 : List RedArea) (a2 : List (Int × Int × Int × Int)),
    ents.foldl (imgStep img) (a1, a2) =
      (a1 ++ (ents.filter hasBox4).map (areaOf img),
       a2 ++ (ents.filter hasBox4).map (drawnRect img))
  | [], a1, a2 => by simp
  | e :: rest, a1, a2 => by
      rw [List.foldl_cons]
      cases hb : e.bbox with
      | none =>
          have hstep : imgStep img (a1, a2) e = (a1, a2) := by
            simp only [imgStep, hb]
          have hfil : (e :: rest).filter hasBox4 = rest.filter hasBox4 := by
            rw [List.filter_cons_of_neg]
            simp [hasBox4, hb]
          rw [hstep, hfil]
          exact imgStep_fold img rest a1 a2
      | some l =>
          match l with
          | [x, y, w, h] =>
              have hstep : imgStep img (a1, a2) e =
                  (a1 ++ [areaOf img e], a2 ++ [drawnRect img e]) := by
                simp only [imgStep, hb, areaOf, drawnRect]
              have hfil : (e :: rest).filter hasBox4 = e :: rest.filter hasBox4 := by
                rw [List.filter_cons_of_pos]
                simp [hasBox4, hb]
              rw [hstep, hfil]
              rw [imgStep_fold img rest _ _]
              simp [List.append_assoc]
          | [] =>
              have hstep : imgStep img (a1, a2) e = (a1, a2) := by
                simp only [imgStep, hb]
              have hfil : (e :: rest).filter hasBox4 = rest.filter hasBox4 := by
                rw [List.filter_cons_of_neg]
                simp [hasBox4, hb]
              rw [hstep, hfil]
              exact imgStep_fold img rest a1 a2
          | [x] =>
              have hstep : imgStep img (a1, a2) e = (a1, a2) := by
                simp only [imgStep, hb]
              have hfil : (e :: rest).filter hasBox4 = rest.filter hasBox4 := by
                rw [List.filter_cons_of_neg]
                simp [hasBox4, hb]
              rw [hstep, hfil]
              exact imgStep_fold img rest a1 a2
          | [x, y] =>
              have hstep : imgStep img (a1, a2) e = (a1, a2) := by
                simp only [imgStep, hb]
              have hfil : (e :: rest).filter hasBox4 = rest.filter hasBox4 := by
                rw [List.filter_cons_of_neg]
                simp [hasBox4, hb]
              rw [hstep, hfil]
              exact imgStep_fold img rest a1 a2
          | [x, y, w] =>
              have hstep : imgStep img (a1, a2) e = (a1, a2) := by
                simp only [imgStep, hb]
              have hfil : (e :: rest).filter hasBox4 = rest.filter hasBox4 := by
                rw [List.filter_cons_of_neg]
                simp [hasBox4, hb]
              rw [hstep, hfil]
              exact imgStep_fold img rest a1 a2
          | x :: y :: w :: h :: q :: tl =>
              have hstep : imgStep img (a1, a2) e = (a1, a2) := by
                simp only [imgStep, hb]
              have hfil : (e :: rest).filter hasBox4 = rest.filter hasBox4 := by
                rw [List.filter_cons_of_neg]
                simp [hasBox4, hb]
              rw [hstep, hfil]
              exact imgStep_fold img rest a1 a2

theorem redact_image_char (env : String → Option PyImage) (path : String)
    (img : PyImage) (ents : List Entity) (h : env path = some img) :
    redact_image env path ents =
      (("redacted_") ++ path,
       (ents.filter hasBox4).map (areaOf img),
       (ents.filter hasBox4).map (drawnRect img)) := by
  rw [redact_image, h]
  simp only
  rw [imgStep_fold img ents [] []]
  simp

theorem procFold_char (env : String → Option PyImage) (doc : DocData) (ocr : OcrResults) :
    ∀ (l : List (Nat × PiiPage)) (e0 : List PageEntry) (t0 : List PageText) (n0 : Nat),
    l.foldl (fun (acc : List PageEntry × List PageText × Nat) pr =>
        let r := processPage env doc ocr pr.1 pr.2
        (acc.1 ++ [r.1], acc.2.1 ++ r.2.1, acc.2.2 + r.2.2)) (e0, t0, n0) =
      (e0 ++ l.map (fun pr => (processPage env doc ocr pr.1 pr.2).1),
       t0 ++ (l.map (fun pr => (processPage env doc ocr pr.1 pr.2).2.1)).flatten,
       n0 + (l.map (fun pr => (processPage env doc ocr pr.1 pr.2).2.2)).sum)
  | [], e0, t0, n0 => by simp
  | pr :: rest, e0, t0, n0 => by
      rw [List.foldl_cons]
      rw [procFold_char env doc ocr rest _ _ _]
      simp [List.append_assoc, Nat.add_assoc]

theorem process_document_eq (env : String → Option PyImage) (doc : DocData)
    (ocr : OcrResults) (pii : PiiResults) (h1 : doc.status = "success")
    (h2 : ocr.status = "success") (h3 : pii.status = "success") :
    process_document env doc ocr pii =
      { status := "success",
        pages := pii.results.length,
        total_redactions := (pii.results.enum.map
          (fun pr => (processPage env doc ocr pr.1 pr.2).2.2)).sum,
        redacted_pages := pii.results.enum.map
          (fun pr => (processPage env doc ocr pr.1 pr.2).1),
        redacted_texts := (pii.results.enum.map
          (fun pr => (processPage env doc ocr pr.1 pr.2).2.1)).flatten } := by
  rw [process_document, if_neg (by simp [h1, h2, h3])]
  simp only
  rw [procFold_char env doc ocr pii.results.enum [] [] 0]
  simp [List.enum_length]

theorem processPage_count (env : String → Option PyImage) (doc : DocData)
    (ocr : OcrResults) (i : Nat) (p : PiiPage) :
    (processPage env doc ocr i p).2.2 =
      (((processPage env doc ocr i p).1.redacted_areas).getD []).length := by
  rw [processPage]
  split
  · rfl
  · split
    · rfl
    · simp only
      split
      · rfl
      · rfl

/-- C3: under successful inputs, the reported `total_redactions` equals the sum
over all page entries of the lengths of their `redacted_areas` lists (absent
lists counting 0); `redact_image` records exactly one `{entity_type, bbox}`
entry per entity carrying a 4-element bbox — one per rectangle drawn — and each
recorded box is the drawn padded-and-clamped rectangle in `[x, y, w, h]` form. -/
theorem c3_redaction_count_invariant (env : String → Option PyImage) (doc : DocData)
    (ocr : OcrResults) (pii : PiiResults) (h1 : doc.status = "success")
    (h2 : ocr.status = "success") (h3 : pii.status = "success") :
    ((process_document env doc ocr pii).total_redactions =
      ((process_document env doc ocr pii).redacted_pages.map
        (fun pe => ((pe.redacted_areas).getD []).length)).sum)
    ∧ (∀ path ents img, env path = some img →
        (redact_image env path ents).2.1 = (ents.filter hasBox4).map (areaOf img) ∧
        (redact_image env path ents).2.2 = (ents.filter hasBox4).map (drawnRect img))
    ∧ (∀ img e, hasBox4 e = true →
        (areaOf img e).bbox = [(drawnRect img e).1, (drawnRect img e).2.1,
          (drawnRect img e).2.2.1 - (drawnRect img e).1,
          (drawnRect img e).2.2.2 - (drawnRect img e).2.1]) := by
  refine ⟨?_, ?_, ?_⟩
  · rw [process_document_eq env doc ocr pii h1 h2 h3]
    simp only [List.map_map]
    refine congrArg List.sum (List.map_congr_left ?_)
    intro pr _
    simp only [Function.comp]
    exact processPage_count env doc ocr pr.1 pr.2
  · intro path ents img h
    rw [redact_image_char env path img ents h]
    exact ⟨rfl, rfl⟩
  · intro img e _
    rfl

/-- Environment with a single 100x50 page image. -/
def exEnvC3 : String → Option PyImage :=
  fun p => if p = ("p1.png") then some { width := 100, height := 50 } else Option.none

/-- A one-page document. -/
def exDocC3 : DocData := { processed_pages := [{ page_num := 1, temp_path := ("p1.png") }] }

/-- OCR output for the one-page document. -/
def exOcrC3 : OcrResults := { pages := [{ page_num := 1, text := some (("SSN 123-45-6789 end").data) }] }

/-- PII output with one boxed SSN entity on the page. -/
def exPiiC3 : PiiResults :=
  { results := [{ entities := [{ entity := some ("SSN"), start := some (.int 4),
                                 stop := some (.int 15), bbox := some [10, 10, 30, 8] }] }] }

/-- Witness for C3: on a concrete one-page document the count invariant holds
and the total is the single drawn rectangle. -/
theorem c3_witness :
    ((process_document exEnvC3 exDocC3 exOcrC3 exPiiC3).total_redactions =
      ((process_document exEnvC3 exDocC3 exOcrC3 exPiiC3).redacted_pages.map
        (fun pe => ((pe.redacted_areas).getD []).length)).sum) ∧
    (process_document exEnvC3 exDocC3 exOcrC3 exPiiC3).total_redactions = 1 := by
  exact ⟨(c3_redaction_count_invariant exEnvC3 exDocC3 exOcrC3 exPiiC3 rfl rfl rfl).1,
         by decide⟩

/-- C8: with successful document-level inputs, `process_document` produces
exactly one entry per PII page, and the `i`-th entry is a function of page `i`'s
data alone; a failed PII page or a missing source page produces an error-status
entry for that page while any page with PII success and a found source page
gets a success-status entry — so one page's failure never aborts the rest. -/
theorem c8_page_isolation (env : String → Option PyImage) (doc : DocData)
    (ocr : OcrResults) (pii : PiiResults) (h1 : doc.status = "success")
    (h2 : ocr.status = "success") (h3 : pii.status = "success") :
    ((process_document env doc ocr pii).redacted_pages.length = pii.results.length)
    ∧ (∀ (i : Nat) (p : PiiPage), pii.results[i]? = some p →
        (process_document env doc ocr pii).redacted_pages[i]? =
          some (processPage env doc ocr i p).1)
    ∧ (∀ (i : Nat) (p : PiiPage), pii.results[i]? = some p → p.status ≠ "success" →
        (processPage env doc ocr i p).1.status = "error")
    ∧ (∀ (i : Nat) (p : PiiPage), pii.results[i]? = some p → p.status = "success" →
        doc.processed_pages.find? (fun q => decide (q.page_num = (i : Int) + 1)) =
          Option.none →
        (processPage env doc ocr i p).1.status = "error")
    ∧ (∀ (i : Nat) (p : PiiPage) (dp : DocPage), pii.results[i]? = some p →
        p.status = "success" →
        doc.processed_pages.find? (fun q => decide (q.page_num = (i : Int) + 1)) =
          some dp →
        (processPage env doc ocr i p).1.status = "success") := by
  refine ⟨?_, ?_, ?_, ?_, ?_⟩
  · rw [process_document_eq env doc ocr pii h1 h2 h3]
    simp [List.enum_length]
  · intro i p hp
    rw [process_document_eq env doc ocr pii h1 h2 h3]
    simp only [List.getElem?_map]
    show ((List.enumFrom 0 pii.results)[i]?.map _) = _
    rw [List.getElem?_enumFrom, hp]
    simp
  · intro i p _ hstat
    rw [processPage, if_pos hstat]
  · intro i p _ hstat hfind
    rw [processPage, if_neg (by simp [hstat]), hfind]
  · intro i p dp _ hstat hfind
    rw [processPage, if_neg (by simp [hstat]), hfind]
    simp only
    split
    · rfl
    · rfl

/-- PII output for a 3-page document whose middle page failed PII detection. -/
def exPiiC8 : PiiResults :=
  { results := [{ entities := [] },
                { status := "error", message := some ("model crash") },
                { entities := [] }] }

/-- A 3-page document. -/
def exDocC8 : DocData :=
  { processed_pages := [{ page_num := 1, temp_path := ("a.png") },
                        { page_num := 2, temp_path := ("b.png") },
                        { page_num := 3, temp_path := ("c.png") }] }

/-- Witness for C8: the failed middle page yields an error entry while both
neighbours still succeed. -/
theorem c8_witness :
    (process_document exEnvC3 exDocC8 { pages := [] } exPiiC8).redacted_pages.length = 3 ∧
    ((process_document exEnvC3 exDocC8 { pages := [] } exPiiC8).redacted_pages.map
      (fun pe => pe.status)) = [("success"), ("error"), ("success")] := by
  refine ⟨(c8_page_isolation exEnvC3 exDocC8 { pages := [] } exPiiC8 rfl rfl rfl).1.trans
    (by decide), by decide⟩

/-- C10: whenever all three inputs carry status success, the document-level
result has status success and `pages` equal to the number of PII page entries,
regardless of what the individual page entries contain. -/
theorem c10_document_level_success (env : String → Option PyImage) (doc : DocData)
    (ocr : OcrResults) (pii : PiiResults) (h1 : doc.status = "success")
    (h2 : ocr.status = "success") (h3 : pii.status = "success") :
    (process_document env doc ocr pii).status = "success" ∧
    (process_document env doc ocr pii).pages = pii.results.length := by
  rw [process_document_eq env doc ocr pii h1 h2 h3]
  exact ⟨rfl, rfl⟩

/-- PII output whose two pages both failed. -/
def exPiiC10 : PiiResults :=
  { results := [{ status := "error" }, { status := "error" }] }

/-- Witness for C10: with every page entry an error, the document result is
still a success over 2 pages. -/
theorem c10_witness :
    (process_document exEnvC3 exDocC8 { pages := [] } exPiiC10).status = "success" ∧
    (process_document exEnvC3 exDocC8 { pages := [] } exPiiC10).pages = 2 ∧
    ((process_document exEnvC3 exDocC8 { pages := [] } exPiiC10).redacted_pages.map
      (fun pe => pe.status)) = [("error"), ("error")] := by
  refine ⟨(c10_document_level_success exEnvC3 exDocC8 { pages := [] } exPiiC10 rfl rfl rfl).1,
    (c10_document_level_success exEnvC3 exDocC8 { pages := [] } exPiiC10 rfl rfl rfl).2.trans
      (by decide),
    by decide⟩

/-! ### Layout analysis (layout.py), claims C6 and C7 -/

/-- The box of a word as a quadruple, when it is a 4-element bbox. -/
def wordBox (w : OcrWord) : Option (Int × Int × Int × Int) :=
  match w.bbox with
  | some [x, y, wd, ht] => some (x, y, wd, ht)
  | _ => Option.none

/-- The row/line bucket key `int(y_middle / d) * d` for `y_middle = y + h/2`
(layout.py lines 171-173, 306-308): in exact arithmetic
`(y + h/2) / d = (2y + h) / (2d)`, and Python `int()` truncates toward zero,
which is `Int.tdiv` on integers. -/
def bucketKey (d : Int) (y h : Int) : Int :=
  Int.tdiv (2 * y + h) (2 * d) * d

/-- The bucket key of a word carrying a 4-element bbox. -/
def rowKeyOf (d : Int) (w : OcrWord) : Option Int :=
  (wordBox w).map (fun b => bucketKey d b.2.1 b.2.2.2)

/-- The sorted distinct bucket keys of a word list (`sorted(rows.keys())`). -/
def rowKeys (d : Int) (words : List OcrWord) : List Int :=
  sortOrd (fun a b => decide (a ≤ b)) ((words.filterMap (rowKeyOf d)).dedup)

/-- The words bucketed at key `k`, in original (dict insertion) order. -/
def rowAt (d : Int) (words : List OcrWord) (k : Int) : List OcrWord :=
  words.filter (fun w => decide (rowKeyOf d w = some k))

/-- Left x of a word (rows only ever hold words with boxes). -/
def xOf (w : OcrWord) : Int := ((wordBox w).map (fun b => b.1)).getD 0

/-- Top y of a word. -/
def yOf (w : OcrWord) : Int := ((wordBox w).map (fun b => b.2.1)).getD 0

/-- Width of a word's box. -/
def wOf (w : OcrWord) : Int := ((wordBox w).map (fun b => b.2.2.1)).getD 0

/-- Height of a word's box. -/
def hOf (w : OcrWord) : Int := ((wordBox w).map (fun b => b.2.2.2)).getD 0

/-- Stable sort of a row's words by left x, as Python `row.sort(key=...)`. -/
def sortByX (l : List OcrWord) : List OcrWord :=
  sortOrd (fun a b => decide (xOf a ≤ xOf b)) l

/-- Python `min(w['bbox'][0] for w in row)` over a nonempty row. -/
def rowMinX : List OcrWord → Int
  | [] => 0
  | w :: r => r.foldl (fun c u => min c (xOf u)) (xOf w)

/-- Python `min(w['bbox'][1] for w in row)` over a nonempty row. -/
def rowMinY : List OcrWord → Int
  | [] => 0
  | w :: r => r.foldl (fun c u => min c (yOf u)) (yOf w)

/-- Python `max(w['bbox'][0] + w['bbox'][2] for w in row)` over a nonempty row. -/
def rowMaxX2 : List OcrWord → Int
  | [] => 0
  | w :: r => r.foldl (fun c u => max c (xOf u + wOf u)) (xOf w + wOf w)

/-- Python `max(w['bbox'][1] + w['bbox'][3] for w in row)` over a nonempty row. -/
def rowMaxY2 : List OcrWord → Int
  | [] => 0
  | w :: r => r.foldl (fun c u => max c (yOf u + hOf u)) (yOf w + hOf w)

/-- Mean word height of a word list, in exact rational arithmetic. -/
def avgHeight (ws : List OcrWord) : ℚ :=
  ((ws.map (fun w => ((hOf w : Int) : ℚ))).sum) / (ws.length : ℚ)

/-- A detected text block. -/
structure TextBlock where
  text : List Char
  bbox : List Int
  btype : String
  line_count : Nat
  word_count : Nat
deriving DecidableEq, Repr

/-- Close the current block (layout.py lines 332-358, textually duplicated at
lines 364-388): union box, joined text, and the heading test
`len(lines) == 1 and avg_height > avg_height_all * 1.2`. -/
def mkBlock (words : List OcrWord) (cur : List OcrWord)
    (curLines : List (List OcrWord)) : TextBlock :=
  { text := List.intercalate ((" ").data)
      (curLines.map (fun line => List.intercalate ((" ").data) (line.map (fun w => w.word))))
    bbox := [rowMinX cur, rowMinY cur, rowMaxX2 cur - rowMinX cur, rowMaxY2 cur - rowMinY cur]
    btype := if curLines.length = 1 ∧ avgHeight cur > avgHeight words * (6 / 5 : ℚ)
             then ("heading") else ("paragraph")
    line_count := curLines.length
    word_count := cur.length }

/-- The line-walking loop of `_detect_text_blocks` (layout.py lines 319-388),
carrying the previous line key, the current block and its lines, and the
emitted blocks. -/
def blockLoop (words : List OcrWord) :
    List Int → Int → List OcrWord → List (List OcrWord) → List TextBlock → List TextBlock
  | [], _, cur, curLines, acc =>
      if cur ≠ [] then acc ++ [mkBlock words cur curLines] else acc
  | k :: rest, prev, cur, curLines, acc =>
      let lineWords := sortByX (rowAt 5 words k)
      if lineWords = [] then blockLoop words rest k cur curLines acc
      else if cur = [] ∨ k - prev < 20 then
        blockLoop words rest k (cur ++ lineWords) (curLines ++ [lineWords]) acc
      else
        blockLoop words rest k lineWords [lineWords] (acc ++ [mkBlock words cur curLines])

/-- `LayoutAnalysisService._detect_text_blocks` (layout.py lines 289-390, the
reachable implementation). -/
def detect_text_blocks (words : List OcrWord) : List TextBlock :=
  match words with
  | [] => []
  | _ => blockLoop words (rowKeys 5 words) 0 [] [] []

theorem blockLoop_mem (words : List OcrWord) :
    ∀ (keys : List Int) (prev : Int) (cur : List OcrWord)
      (curLines : List (List OcrWord)) (acc : List TextBlock),
    (∀ b ∈ acc, ∃ cu ls, b = mkBlock words cu ls) →
    ∀ b ∈ blockLoop words keys prev cur curLines acc, ∃ cu ls, b = mkBlock words cu ls
  | [], prev, cur, curLines, acc, hacc, b => by
      rw [blockLoop]
      split
      · intro hb
        rcases List.mem_append.mp hb with h | h
        · exact hacc b h
        · exact ⟨cur, curLines, by simpa using h⟩
      · exact hacc b
  | k :: rest, prev, cur, curLines, acc, hacc, b => by
      rw [blockLoop]
      split
      · exact blockLoop_mem words rest k cur curLines acc hacc b
      · split
        · exact blockLoop_mem words rest k _ _ acc hacc b
        · refine blockLoop_mem words rest k _ _ _ ?_ b
          intro b' hb'
          rcases List.mem_append.mp hb' with h | h
          · exact hacc b' h
          · exact ⟨cur, curLines, by simpa using h⟩

/-- C7: a block is classified heading iff it is single-line and its mean word
height strictly exceeds 1.2 times the page-wide mean (exactly 1.2 times gives
paragraph, 1.21 times with a positive page mean gives heading); every block
emitted by `_detect_text_blocks` is produced by this classification, and a page
with exactly one (non-negative-height) word yields one single-line block that is
classified paragraph, never heading. -/
theorem c7_heading_iff (words : List OcrWord) :
    (∀ cur curLines, (mkBlock words cur curLines).btype = ("heading") ↔
        (curLines.length = 1 ∧ avgHeight words * (6 / 5 : ℚ) < avgHeight cur))
    ∧ (∀ cur curLines, curLines.length = 1 →
        avgHeight cur = avgHeight words * (6 / 5 : ℚ) →
        (mkBlock words cur curLines).btype = ("paragraph"))
    ∧ (∀ cur curLines, curLines.length = 1 →
        avgHeight cur = avgHeight words * (121 / 100 : ℚ) → 0 < avgHeight words →
        (mkBlock words cur curLines).btype = ("heading"))
    ∧ (∀ b ∈ detect_text_blocks words, ∃ cu ls, b = mkBlock words cu ls)
    ∧ (∀ (w : OcrWord) (x y wd ht : Int), words = [w] → w.bbox = some [x, y, wd, ht] →
        0 ≤ ht →
        detect_text_blocks [w] = [mkBlock [w] [w] [[w]]] ∧
        (mkBlock [w] [w] [[w]]).line_count = 1 ∧
        (mkBlock [w] [w] [[w]]).btype = ("paragraph")) := by
  refine ⟨?_, ?_, ?_, ?_, ?_⟩
  · intro cur curLines
    rw [mkBlock]
    by_cases hp : curLines.length = 1 ∧ avgHeight cur > avgHeight words * (6 / 5 : ℚ)
    · rw [if_pos hp]
      simpa using hp
    · rw [if_neg hp]
      dsimp only
      constructor
      · intro hcontr
        exact absurd hcontr (by decide)
      · intro hc
        exact absurd ⟨hc.1, hc.2⟩ hp
  · intro cur curLines h1 h2
    have hneg : ¬(curLines.length = 1 ∧ avgHeight cur > avgHeight words * (6 / 5 : ℚ)) := by
      intro hc
      rw [h2] at hc
      exact absurd hc.2 (lt_irrefl _)
    rw [mkBlock, if_neg hneg]
  · intro cur curLines h1 h2 h3
    have hpos : curLines.length = 1 ∧ avgHeight cur > avgHeight words * (6 / 5 : ℚ) := by
      refine ⟨h1, ?_⟩
      show avgHeight words * (6 / 5 : ℚ) < avgHeight cur
      rw [h2]
      nlinarith [h3]
    rw [mkBlock, if_pos hpos]
  · intro b hb
    cases words with
    | nil => simp [detect_text_blocks] at hb
    | cons w ws =>
        have h0 : ∀ b' ∈ ([] : List TextBlock), ∃ cu ls, b' = mkBlock (w :: ws) cu ls :=
          fun b' hb' => absurd hb' (List.not_mem_nil b')
        exact blockLoop_mem (w :: ws) (rowKeys 5 (w :: ws)) 0 [] [] [] h0 b hb
  · intro w x y wd ht _hwords hb hht
    have hwb : wordBox w = some (x, y, wd, ht) := by rw [wordBox, hb]
    have hrk : rowKeyOf 5 w = some (bucketKey 5 y ht) := by
      rw [rowKeyOf, hwb]
      rfl
    have hfm : List.filterMap (rowKeyOf 5) [w] = [bucketKey 5 y ht] := by simp [hrk]
    have hkeys : rowKeys 5 [w] = [bucketKey 5 y ht] := by
      rw [rowKeys, hfm]
      rfl
    have hrow : rowAt 5 [w] (bucketKey 5 y ht) = [w] := by
      rw [rowAt]
      simp [hrk]
    have hline : sortByX [w] = [w] := rfl
    have hh : hOf w = ht := by
      rw [hOf, hwb]
      rfl
    have havg : avgHeight [w] = (ht : ℚ) := by simp [avgHeight, hh]
    have hpara : (mkBlock [w] [w] [[w]]).btype = ("paragraph") := by
      have hneg : ¬(([[w]] : List (List OcrWord)).length = 1 ∧
          avgHeight [w] > avgHeight [w] * (6 / 5 : ℚ)) := by
        intro hc
        have h2 := hc.2
        rw [havg] at h2
        have hq : (0 : ℚ) ≤ (ht : ℚ) := by exact_mod_cast hht
        nlinarith [h2]
      rw [mkBlock, if_neg hneg]
    refine ⟨?_, rfl, hpara⟩
    show blockLoop [w] (rowKeys 5 [w]) 0 [] [] [] = [mkBlock [w] [w] [[w]]]
    rw [hkeys, blockLoop]
    simp only [hrow, hline]
    rw [if_neg (by simp), if_pos (by simp)]
    rw [blockLoop, if_pos (by simp)]
    simp

/-- Page words for the exact-1.2 boundary instance: heights 12 and 8, mean 10. -/
def wH12 : OcrWord := { word := ("T").data, bbox := some [0, 0, 10, 12] }

/-- Second page word of the boundary instance. -/
def wH8 : OcrWord := { word := ("u").data, bbox := some [0, 40, 10, 8] }

/-- Page words for the 1.21 instance: heights 121 and 79, mean 100. -/
def wH121 : OcrWord := { word := ("B").data, bbox := some [0, 0, 10, 121] }

/-- Second page word of the 1.21 instance. -/
def wH79 : OcrWord := { word := ("c").data, bbox := some [0, 400, 10, 79] }

/-- Witness for C7: mean height exactly 1.2 times the page mean is a paragraph,
1.21 times is a heading, and a one-word page yields one paragraph block. -/
theorem c7_witness :
    (mkBlock [wH12, wH8] [wH12] [[wH12]]).btype = ("paragraph") ∧
    (mkBlock [wH121, wH79] [wH121] [[wH121]]).btype = ("heading") ∧
    detect_text_blocks [wH12] = [mkBlock [wH12] [wH12] [[wH12]]] ∧
    (mkBlock [wH12] [wH12] [[wH12]]).btype = ("paragraph") := by
  have e12 : avgHeight [wH12] = 12 := by norm_num [avgHeight, hOf, wordBox, wH12]
  have e128 : avgHeight [wH12, wH8] = 10 := by
    norm_num [avgHeight, hOf, wordBox, wH12, wH8]
  have e121 : avgHeight [wH121] = 121 := by norm_num [avgHeight, hOf, wordBox, wH121]
  have e12179 : avgHeight [wH121, wH79] = 100 := by
    norm_num [avgHeight, hOf, wordBox, wH121, wH79]
  have h1 := (c7_heading_iff [wH12, wH8]).2.1 [wH12] [[wH12]] rfl
    (by rw [e12, e128]; norm_num)
  have h2 := (c7_heading_iff [wH121, wH79]).2.2.1 [wH121] [[wH121]] rfl
    (by rw [e121, e12179]; norm_num) (by rw [e12179]; norm_num)
  have h3 := (c7_heading_iff [wH12]).2.2.2.2 wH12 0 0 10 12 rfl rfl (by norm_num)
  exact ⟨h1, h2, h3.1, h3.2.2⟩

/-! ### Table detection (layout.py lines 151-286), claim C6 -/

/-- One detected table cell. -/
structure TableCell where
  row : Nat
  col : Nat
  ctext : List Char
  bbox : List Int
deriving DecidableEq, Repr

/-- One detected table. -/
structure PyTable where
  bbox : List Int
  rows : Nat
  cols : Nat
  cells : List TableCell
deriving DecidableEq, Repr

/-- `abs(len(a) - len(b)) <= 1` on row word counts. -/
def cntClose (a b : Nat) : Bool := decide (((a : Int) - b).natAbs ≤ 1)

/-- Column alignment test (layout.py lines 196-206): for every column index
present in all three x-sorted rows, the spread of the three left-x values is at
most 50 pixels. -/
def alignedRows (r1 r2 r3 : List OcrWord) : Bool :=
  (List.range (min r1.length (min r2.length r3.length))).all (fun j =>
    decide (max (xOf (r1.getD j default)) (max (xOf (r2.getD j default))
        (xOf (r3.getD j default))) -
      min (xOf (r1.getD j default)) (min (xOf (r2.getD j default))
        (xOf (r3.getD j default))) ≤ 50))

/-- The seed test at index `i` (layout.py lines 186-206): word counts of
adjacent rows differ by at most 1, the first row has at least 2 words, and the
three x-sorted rows are column-aligned. -/
def seedCond (words : List OcrWord) (keys : List Int) (i : Nat) : Bool :=
  cntClose (rowAt 5 words (keys.getD i 0)).length
      (rowAt 5 words (keys.getD (i + 1) 0)).length &&
    cntClose (rowAt 5 words (keys.getD (i + 1) 0)).length
      (rowAt 5 words (keys.getD (i + 2) 0)).length &&
    decide (2 ≤ (rowAt 5 words (keys.getD i 0)).length) &&
    alignedRows (sortByX (rowAt 5 words (keys.getD i 0)))
      (sortByX (rowAt 5 words (keys.getD (i + 1) 0)))
      (sortByX (rowAt 5 words (keys.getD (i + 2) 0)))

/-- The upward run extension (layout.py lines 231-236): step to row `j-1` while
its word count stays within 1 of the seed's first row, stop at the first
failure. `walkUp cond i` is the final `top_row_idx` starting from seed `i`. -/
def walkUp (cond : Nat → Bool) : Nat → Nat
  | 0 => 0
  | i + 1 => if cond i then walkUp cond i else i + 1

/-- The downward run extension (layout.py lines 239-244), iterating `j` over
`range(i+3, len(row_keys))` with structural fuel `len(row_keys) - (i+3)`. -/
def walkDown (cond : Nat → Bool) : Nat → Nat → Nat → Nat
  | 0, _, bottom => bottom
  | fuel + 1, j, bottom => if cond j then walkDown cond fuel (j + 1) j else bottom

/-- The table emitted from a passing seed at index `i` (layout.py lines
208-281): initial bounds over the three seed rows, run extension up and down,
bounds recomputed over the run, and one cell per (row, col) word. -/
def tableAt (words : List OcrWord) (keys : List Int) (i : Nat) : PyTable :=
  let r1 := sortByX (rowAt 5 words (keys.getD i 0))
  let r2 := sortByX (rowAt 5 words (keys.getD (i + 1) 0))
  let r3 := sortByX (rowAt 5 words (keys.getD (i + 2) 0))
  let mnx0 := min (rowMinX r1) (min (rowMinX r2) (rowMinX r3))
  let mxx0 := max (rowMaxX2 r1) (max (rowMaxX2 r2) (rowMaxX2 r3))
  let mny0 := min (rowMinY r1) (min (rowMinY r2) (rowMinY r3))
  let mxy0 := max (rowMaxY2 r1) (max (rowMaxY2 r2) (rowMaxY2 r3))
  let rowLen := fun j => (rowAt 5 words (keys.getD j 0)).length
  let top := walkUp (fun j => cntClose (rowLen j) r1.length) i
  let bottom := walkDown (fun j => cntClose (rowLen j) r3.length)
    (keys.length - (i + 3)) (i + 3) (i + 2)
  let runRows := (List.range (bottom + 1 - top)).map
    (fun o => sortByX (rowAt 5 words (keys.getD (top + o) 0)))
  let mnx := runRows.foldl (fun c r => if r ≠ [] then min c (rowMinX r) else c) mnx0
  let mxx := runRows.foldl (fun c r => if r ≠ [] then max c (rowMaxX2 r) else c) mxx0
  let mny := runRows.foldl (fun c r => if r ≠ [] then min c (rowMinY r) else c) mny0
  let mxy := runRows.foldl (fun c r => if r ≠ [] then max c (rowMaxY2 r) else c) mxy0
  let cells := (runRows.enum.map (fun rr =>
    rr.2.enum.map (fun cw =>
      { row := rr.1, col := cw.1, ctext := cw.2.word,
        bbox := (cw.2.bbox).getD [] } ))).flatten
  { bbox := [mnx, mny, mxx - mnx, mxy - mny],
    rows := runRows.length,
    cols := match runRows with
            | [] => 0
            | r :: rs => rs.foldl (fun c q => max c q.length) r.length,
    cells := cells }

/-- `LayoutAnalysisService._detect_tables` (layout.py lines 151-286). The
`i = bottom_row_idx` assignment inside the Python `for` loop does not skip
iterations, so every index in range is tested as a seed. -/
def detect_tables (words : List OcrWord) : List PyTable :=
  (List.range ((rowKeys 5 words).length - 2)).filterMap
    (fun i => if seedCond words (rowKeys 5 words) i then
        some (tableAt words (rowKeys 5 words) i)
      else Option.none)

theorem insertOrd_length {α : Type} (le : α → α → Bool) (x : α) :
    ∀ l : List α, (insertOrd le x l).length = l.length + 1
  | [] => rfl
  | y :: l => by
      rw [insertOrd]
      split
      · simp [insertOrd_length le x l]
      · simp

theorem sortOrd_length {α : Type} (le : α → α → Bool) (l : List α) :
    (sortOrd le l).length = l.length := by
  suffices h : ∀ (l : List α) (acc : List α),
      (l.foldl (fun acc x => insertOrd le x acc) acc).length = acc.length + l.length by
    simpa using h l []
  intro l
  induction l with
  | nil => intro acc; simp
  | cons x xs ih =>
      intro acc
      rw [List.foldl_cons, ih, insertOrd_length]
      simp [List.length_cons]
      omega

theorem walkUp_le (cond : Nat → Bool) : ∀ i, walkUp cond i ≤ i
  | 0 => le_refl 0
  | i + 1 => by
      rw [walkUp]
      split
      · exact le_trans (walkUp_le cond i) (by omega)
      · exact le_refl _

theorem walkDown_ge (cond : Nat → Bool) :
    ∀ (fuel j b : Nat), b < j → b ≤ walkDown cond fuel j b
  | 0, _, b, _ => le_refl b
  | fuel + 1, j, b, hbj => by
      rw [walkDown]
      split
      · exact le_trans (by omega) (walkDown_ge cond fuel (j + 1) j (by omega))
      · exact le_refl b

theorem filterMap_ite_length {β : Type} (f : Nat → β) (c : Nat → Bool) :
    ∀ l : List Nat,
    (l.filterMap (fun i => if c i then some (f i) else Option.none)).length =
      (l.filter c).length
  | [] => rfl
  | i :: l => by
      by_cases h : c i = true
      · rw [List.filterMap_cons_some (by rw [h]; rfl), List.filter_cons_of_pos h]
        simp [filterMap_ite_length f c l]
      · rw [List.filterMap_cons_none (by rw [Bool.not_eq_true] at h; rw [h]; rfl),
          List.filter_cons_of_neg (by simpa using h)]
        exact filterMap_ite_length f c l

theorem sortByX_length (l : List OcrWord) : (sortByX l).length = l.length :=
  sortOrd_length _ l

/-- Follows the amended claim: the seed at `i` requires adjacent word-count
differences of at most 1 (first/second and second/third row), at least 2 words
in the first row, and a left-x spread of at most 50 pixels on every column
index present in all three x-sorted rows. -/
def seedSpecAmended (words : List OcrWord) (keys : List Int) (i : Nat) : Prop :=
  (((rowAt 5 words (keys.getD i 0)).length : Int) -
      ((rowAt 5 words (keys.getD (i + 1) 0)).length : Int)).natAbs ≤ 1 ∧
  (((rowAt 5 words (keys.getD (i + 1) 0)).length : Int) -
      ((rowAt 5 words (keys.getD (i + 2) 0)).length : Int)).natAbs ≤ 1 ∧
  2 ≤ (rowAt 5 words (keys.getD i 0)).length ∧
  ∀ j < min (rowAt 5 words (keys.getD i 0)).length
      (min (rowAt 5 words (keys.getD (i + 1) 0)).length
        (rowAt 5 words (keys.getD (i + 2) 0)).length),
    max (xOf ((sortByX (rowAt 5 words (keys.getD i 0))).getD j default))
        (max (xOf ((sortByX (rowAt 5 words (keys.getD (i + 1) 0))).getD j default))
          (xOf ((sortByX (rowAt 5 words (keys.getD (i + 2) 0))).getD j default))) -
      min (xOf ((sortByX (rowAt 5 words (keys.getD i 0))).getD j default))
        (min (xOf ((sortByX (rowAt 5 words (keys.getD (i + 1) 0))).getD j default))
          (xOf ((sortByX (rowAt 5 words (keys.getD (i + 2) 0))).getD j default))) ≤ 50

instance seedSpecAmendedDec (words : List OcrWord) (keys : List Int) (i : Nat) :
    Decidable (seedSpecAmended words keys i) := by
  unfold seedSpecAmended
  infer_instance

theorem seedCond_iff (words : List OcrWord) (keys : List Int) (i : Nat) :
    seedCond words keys i = true ↔ seedSpecAmended words keys i := by
  rw [seedCond, seedSpecAmended]
  simp only [Bool.and_eq_true, decide_eq_true_eq, cntClose, alignedRows,
    List.all_eq_true, List.mem_range, sortByX_length]
  constructor
  · intro h
    exact ⟨h.1.1.1, h.1.1.2, h.1.2, fun j hj => h.2 j hj⟩
  · intro h
    exact ⟨⟨⟨h.1, h.2.1⟩, h.2.2.1⟩, fun j hj => h.2.2.2 j hj⟩

theorem run_length_ge (c1 c2 : Nat → Bool) (n i : Nat) :
    3 ≤ walkDown c2 (n - (i + 3)) (i + 3) (i + 2) + 1 - walkUp c1 i := by
  have h1 := walkUp_le c1 i
  have h2 := walkDown_ge c2 (n - (i + 3)) (i + 3) (i + 2) (by omega)
  omega

theorem tableAt_rows (words : List OcrWord) (keys : List Int) (i : Nat) :
    3 ≤ (tableAt words keys i).rows := by
  rw [tableAt]
  simp only [List.length_map, List.length_range]
  exact run_length_ge _ _ _ _

/-- Words forming three consecutive rows of 2, 3 and 4 words whose shared left
columns are perfectly aligned. -/
def exTableWords : List OcrWord :=
  [ { word := ("a1").data, bbox := some [0, 0, 30, 4] },
    { word := ("a2").data, bbox := some [100, 0, 30, 4] },
    { word := ("b1").data, bbox := some [0, 100, 30, 4] },
    { word := ("b2").data, bbox := some [100, 100, 30, 4] },
    { word := ("b3").data, bbox := some [200, 100, 30, 4] },
    { word := ("c1").data, bbox := some [0, 200, 30, 4] },
    { word := ("c2").data, bbox := some [100, 200, 30, 4] },
    { word := ("c3").data, bbox := some [200, 200, 30, 4] },
    { word := ("c4").data, bbox := some [300, 200, 30, 4] } ]

/-- Counterexample to C6 as stated: on a page whose only three rows hold 2, 3
and 4 words, the word counts do not differ pairwise by at most 1 (first and
third rows differ by 2), yet `_detect_tables` emits a table from that seed —
the code only compares adjacent rows and only requires the first row to hold
two words. -/
theorem c6_counterexample :
    ((rowKeys 5 exTableWords).map (fun k => (rowAt 5 exTableWords k).length) = [2, 3, 4]) ∧
    (detect_tables exTableWords).length = 1 ∧
    ¬((((2 : Nat) : Int) - ((4 : Nat) : Int)).natAbs ≤ 1) := by
  refine ⟨by decide, by decide, by decide⟩

/-- C6 (amended): the table detector emits exactly one table per seed index
satisfying the amended conditions — word counts of adjacent rows (first/second
and second/third) within 1 of each other, at least 2 words in the first row,
and columns aligned within 50px — and every emitted table spans at least 3
rows. -/
theorem c6_amended_seed_exactness (words : List OcrWord) :
    ((detect_tables words).length =
      ((List.range ((rowKeys 5 words).length - 2)).filter
        (fun i => decide (seedSpecAmended words (rowKeys 5 words) i))).length)
    ∧ (∀ t ∈ detect_tables words, 3 ≤ t.rows) := by
  constructor
  · rw [detect_tables]
    rw [filterMap_ite_length (fun i => tableAt words (rowKeys 5 words) i)
      (fun i => seedCond words (rowKeys 5 words) i)]
    refine congrArg List.length (List.filter_congr ?_)
    intro i _
    rcases Bool.eq_false_or_eq_true (seedCond words (rowKeys 5 words) i) with h | h
    · rw [h]
      symm
      rw [decide_eq_true_eq]
      exact (seedCond_iff words (rowKeys 5 words) i).mp h
    · rw [h]
      symm
      rw [decide_eq_false_iff_not]
      intro hs
      rw [← seedCond_iff] at hs
      rw [h] at hs
      cases hs
  · intro t ht
    rw [detect_tables, List.mem_filterMap] at ht
    obtain ⟨i, _, hi⟩ := ht
    by_cases h : seedCond words (rowKeys 5 words) i = true
    · rw [if_pos h] at hi
      cases hi
      exact tableAt_rows words (rowKeys 5 words) i
    · rw [if_neg h] at hi
      cases hi
